import Mathlib

/-!
Verification development for the capsule deployment process
(src/deployment/deployment_process.rs).

The Rust module is shallowly embedded: machine integers are `Nat` with
explicit `% 2 ^ 64` where overflow matters, fallible code returns
`Except DeployErr`, and the external collaborators (wallet, filesystem)
are modelled as function-valued fields, per their interface contracts.
-/

namespace Capsule

/-! ## Byte and 64-bit word helpers -/

/-- Little-endian bytes of `x`, `n` bytes wide (`to_le_bytes` in the source). -/
def natToLeBytes (n x : Nat) : List Nat :=
  (List.range n).map (fun i => (x >>> (8 * i)) % 256)

/-- Value of a little-endian byte list. -/
def leWord (bs : List Nat) : Nat :=
  bs.foldr (fun b acc => b + acc * 256) 0

/-- The 64-bit modulus. -/
def M64 : Nat := 2 ^ 64

/-- 64-bit right rotation. -/
def rotr64 (x n : Nat) : Nat :=
  (x >>> n) ||| ((x % 2 ^ n) <<< (64 - n))

/-- 64-bit wrapping addition. -/
def add64 (a b : Nat) : Nat := (a + b) % M64

/-! ## Blake2b-256 with the ckb personalization

`new_blake2b()` from the external ckb hashing library: blake2b with a
32-byte digest and personalization bytes "ckb-default-hash", modelled
faithfully from the published blake2b algorithm. -/

/-- Blake2b initialization vector. -/
def blakeIV : List Nat :=
  [0x6a09e667f3bcc908, 0xbb67ae8584caa73b, 0x3c6ef372fe94f82b, 0xa54ff53a5f1d36f1,
   0x510e527fade682d1, 0x9b05688c2b3e6c1f, 0x1f83d9abfb41bd6b, 0x5be0cd19137e2179]

/-- The twelve blake2b message schedules. -/
def blakeSigma : List (List Nat) :=
  [[0, 1, 2, 3, 4, 5, 6, 7, 8, 9, 10, 11, 12, 13, 14, 15],
   [14, 10, 4, 8, 9, 15, 13, 6, 1, 12, 0, 2, 11, 7, 5, 3],
   [11, 8, 12, 0, 5, 2, 15, 13, 10, 14, 3, 6, 7, 1, 9, 4],
   [7, 9, 3, 1, 13, 12, 11, 14, 2, 6, 5, 10, 4, 0, 15, 8],
   [9, 0, 5, 7, 2, 4, 10, 15, 14, 1, 11, 12, 6, 8, 3, 13],
   [2, 12, 6, 10, 0, 11, 8, 3, 4, 13, 7, 5, 15, 14, 1, 9],
   [12, 5, 1, 15, 14, 13, 4, 10, 0, 7, 6, 3, 9, 2, 8, 11],
   [13, 11, 7, 14, 12, 1, 3, 9, 5, 0, 15, 4, 8, 6, 2, 10],
   [6, 15, 14, 9, 11, 3, 0, 8, 12, 2, 13, 7, 1, 4, 10, 5],
   [10, 2, 8, 4, 7, 6, 1, 5, 15, 11, 9, 14, 3, 12, 13, 0],
   [0, 1, 2, 3, 4, 5, 6, 7, 8, 9, 10, 11, 12, 13, 14, 15],
   [14, 10, 4, 8, 9, 15, 13, 6, 1, 12, 0, 2, 11, 7, 5, 3]]

/-- Blake2b mixing function G acting on the 16-word working vector. -/
def gmix (v : List Nat) (a b c d x y : Nat) : List Nat :=
  let va := add64 (add64 (v.getD a 0) (v.getD b 0)) x
  let vd := rotr64 ((v.getD d 0) ^^^ va) 32
  let vc := add64 (v.getD c 0) vd
  let vb := rotr64 ((v.getD b 0) ^^^ vc) 24
  let va := add64 (add64 va vb) y
  let vd := rotr64 (vd ^^^ va) 16
  let vc := add64 vc vd
  let vb := rotr64 (vb ^^^ vc) 63
  ((((v.set a va).set b vb).set c vc).set d vd)

/-- One blake2b round with schedule `s`. -/
def blakeRound (m v s : List Nat) : List Nat :=
  let mi := fun i => m.getD (s.getD i 0) 0
  let v := gmix v 0 4 8 12 (mi 0) (mi 1)
  let v := gmix v 1 5 9 13 (mi 2) (mi 3)
  let v := gmix v 2 6 10 14 (mi 4) (mi 5)
  let v := gmix v 3 7 11 15 (mi 6) (mi 7)
  let v := gmix v 0 5 10 15 (mi 8) (mi 9)
  let v := gmix v 1 6 11 12 (mi 10) (mi 11)
  let v := gmix v 2 7 8 13 (mi 12) (mi 13)
  gmix v 3 4 9 14 (mi 14) (mi 15)

/-- Blake2b compression of one 16-word message block. -/
def blakeCompress (h m : List Nat) (t : Nat) (last : Bool) : List Nat :=
  let v := h ++ blakeIV
  let v := v.set 12 ((v.getD 12 0) ^^^ (t % M64))
  let v := v.set 13 ((v.getD 13 0) ^^^ ((t / M64) % M64))
  let v := if last then v.set 14 ((v.getD 14 0) ^^^ (M64 - 1)) else v
  let v := blakeSigma.foldl (fun v s => blakeRound m v s) v
  (List.range 8).map (fun i => (h.getD i 0) ^^^ (v.getD i 0) ^^^ (v.getD (i + 8) 0))

/-- Split a (≤128-byte) block into its 16 little-endian words; missing bytes read as zero. -/
def blockWords (block : List Nat) : List Nat :=
  (List.range 16).map (fun i => leWord ((block.drop (8 * i)).take 8))

/-- Hash the message stream, 128 bytes per compression, `t` bytes already consumed. -/
def blake2bUpdate (h : List Nat) (t : Nat) (msg : List Nat) : List Nat :=
  if msg.length ≤ 128 then
    blakeCompress h (blockWords msg) (t + msg.length) true
  else
    blake2bUpdate (blakeCompress h (blockWords (msg.take 128)) (t + 128) false)
      (t + 128) (msg.drop 128)
termination_by msg.length
decreasing_by simp only [List.length_drop]; omega

/-- The personalization bytes "ckb-default-hash". -/
def ckbPersonal : List Nat :=
  [0x63, 0x6b, 0x62, 0x2d, 0x64, 0x65, 0x66, 0x61,
   0x75, 0x6c, 0x74, 0x2d, 0x68, 0x61, 0x73, 0x68]

/-- Initial state: IV xor parameter block (digest length 32, fanout 1,
depth 1, personalization "ckb-default-hash"). -/
def blake2bInit : List Nat :=
  (List.range 8).map (fun i =>
    (blakeIV.getD i 0) ^^^
      (if i = 0 then 0x01010020
       else if i = 6 then leWord (ckbPersonal.take 8)
       else if i = 7 then leWord (ckbPersonal.drop 8)
       else 0))

/-- Blake2b-256 with the ckb personalization: the first 32 bytes of the final state. -/
def ckbBlake2b (msg : List Nat) : List Nat :=
  let h := blake2bUpdate blake2bInit 0 msg
  natToLeBytes 8 (h.getD 0 0) ++ natToLeBytes 8 (h.getD 1 0) ++
    natToLeBytes 8 (h.getD 2 0) ++ natToLeBytes 8 (h.getD 3 0)

theorem natToLeBytes_length (n x : Nat) : (natToLeBytes n x).length = n := by
  simp [natToLeBytes]

theorem ckbBlake2b_length (msg : List Nat) : (ckbBlake2b msg).length = 32 := by
  simp [ckbBlake2b, natToLeBytes_length]

/-! ## Data model (crate::config, ckb_types, wallet::cli_types) -/

/-- A 32-byte hash, as its byte list. -/
abbrev H256 := List Nat

/-- `packed::OutPoint`: a reference to a transaction output. -/
structure OutPoint where
  tx_hash : H256
  index : Nat
deriving DecidableEq, Inhabited

/-- `packed::CellInput`: a consumed out-point plus a `since` field (u64). -/
structure CellInput where
  since : Nat
  previous_output : OutPoint
deriving DecidableEq, Inhabited

/-- `ScriptHashType`: how a script's `code_hash` addresses code. -/
inductive HashType where
  | data
  | type
deriving DecidableEq, Inhabited

/-- `packed::Script`. -/
structure Script where
  code_hash : H256
  hash_type : HashType
  args : List Nat
deriving DecidableEq, Inhabited

/-- `packed::CellOutput`: capacity (shannons, u64), lock script, optional type script. -/
structure CellOutput where
  capacity : Nat
  lock : Script
  type_ : Option Script
deriving DecidableEq, Inhabited

/-- `cli_types::LiveCell`: a spendable output known to the wallet. -/
structure LiveCell where
  tx_hash : H256
  index : Nat
  capacity : Nat
  mature : Bool
deriving DecidableEq, Inhabited

/-- `LiveCell::out_point`. -/
def LiveCell.out_point (lc : LiveCell) : OutPoint :=
  ⟨lc.tx_hash, lc.index⟩

/-- `LiveCell::input`: consume the cell with `since = 0`. -/
def LiveCell.input (lc : LiveCell) : CellInput :=
  ⟨0, lc.out_point⟩

/-- A transaction, restricted to the fields the deployment process reads:
inputs, outputs and per-output data (cell deps and witnesses are not
consulted by the code under verification). -/
structure Transaction where
  inputs : List CellInput
  outputs : List CellOutput
  outputs_data : List (List Nat)
deriving DecidableEq, Inhabited

/-- `config::CellLocation`: where a cell's payload comes from. -/
inductive CellLocation where
  | file (file : String)
  | outPoint (tx_hash : H256) (index : Nat)
deriving DecidableEq, Inhabited

/-- `config::Cell`. -/
structure Cell where
  name : String
  enable_type_id : Bool
  location : CellLocation
deriving DecidableEq, Inhabited

/-- `config::DepGroup`: a named ordered list of cell names. -/
structure DepGroup where
  name : String
  cells : List String
deriving DecidableEq, Inhabited

/-- `config::Deployment`: the deployer's lock plus the declared artifacts. -/
structure Deployment where
  lock : Script
  cells : List Cell
  dep_groups : List DepGroup
deriving DecidableEq, Inhabited

/-- `recipe::CellRecipe`. -/
structure CellRecipe where
  index : Nat
  name : String
  data_hash : H256
  occupied_capacity : Nat
  tx_hash : H256
  type_id : Option H256
deriving DecidableEq, Inhabited

/-- `recipe::DepGroupRecipe`. -/
structure DepGroupRecipe where
  index : Nat
  name : String
  occupied_capacity : Nat
  tx_hash : H256
deriving DecidableEq, Inhabited

/-- `recipe::DeploymentRecipe`. -/
structure DeploymentRecipe where
  cell_recipes : List CellRecipe
  dep_group_recipes : List DepGroupRecipe
deriving DecidableEq, Inhabited

/-- Errors of the process. `configErr` models `anyhow!` messages, `ioError`
a failed payload read (the path printed in the report plus the OS message),
`funding` a wallet funding failure, and `panicked` a Rust panic
(`expect`/out-of-bounds indexing). -/
inductive DeployErr where
  | configErr (msg : String)
  | ioError (path : String) (msg : String)
  | funding (msg : String)
  | panicked (msg : String)
deriving DecidableEq, Inhabited

/-! ## External library encodings (ckb_types molecule serialization) -/

/-- Molecule encoding of a `CellInput`: `since` (8 LE bytes) then the
out-point (32-byte tx hash, 4 LE index bytes). -/
def CellInput.serialize (ci : CellInput) : List Nat :=
  natToLeBytes 8 ci.since ++ ci.previous_output.tx_hash ++
    natToLeBytes 4 ci.previous_output.index

/-- Molecule encoding of an `OutPoint` (36 bytes). -/
def OutPoint.serialize (op : OutPoint) : List Nat :=
  op.tx_hash ++ natToLeBytes 4 op.index

/-- `OutPointVec::as_bytes`: item count (4 LE bytes) then the items. -/
def serializeOutPointVec (ops : List OutPoint) : List Nat :=
  natToLeBytes 4 ops.length ++ (ops.map OutPoint.serialize).flatten

/-- Byte value of a `ScriptHashType`. -/
def HashType.toByte : HashType → Nat
  | .data => 0
  | .type => 1

/-- Byte encoding of a `Script` (code hash, hash type, length-prefixed args). -/
def Script.serialize (s : Script) : List Nat :=
  s.code_hash ++ [s.hash_type.toByte] ++ natToLeBytes 4 s.args.length ++ s.args

/-- `Script::calc_script_hash`: blake2b-256 of the serialized script. -/
def Script.calc_script_hash (s : Script) : H256 :=
  ckbBlake2b s.serialize

/-- `CellOutput::calc_data_hash`: all-zero for empty data, otherwise
blake2b-256 of the data. -/
def calc_data_hash (data : List Nat) : H256 :=
  if data = [] then List.replicate 32 0 else ckbBlake2b data

/-- Byte encoding of a transaction's modelled fields, used for its hash. -/
def Transaction.serialize (tx : Transaction) : List Nat :=
  natToLeBytes 4 tx.inputs.length ++ (tx.inputs.map CellInput.serialize).flatten ++
    natToLeBytes 4 tx.outputs.length ++
    (tx.outputs.map (fun o => natToLeBytes 8 o.capacity ++ o.lock.serialize ++
      (o.type_.map Script.serialize).getD [])).flatten ++
    natToLeBytes 4 tx.outputs_data.length ++
    (tx.outputs_data.map (fun d => natToLeBytes 4 d.length ++ d)).flatten

/-- `TransactionView::hash`: blake2b-256 over the transaction's byte encoding. -/
def Transaction.hash (tx : Transaction) : H256 :=
  ckbBlake2b tx.serialize

/-- Occupied bytes of a script: 32-byte code hash, 1 hash-type byte, args. -/
def Script.occupiedBytes (s : Script) : Nat :=
  32 + 1 + s.args.length

/-- `CellOutput::occupied_capacity` in shannons: 8 capacity bytes, lock,
optional type script, plus the data bytes, at 10^8 shannons per byte. -/
def CellOutput.occupied_capacity (o : CellOutput) (dataLen : Nat) : Nat :=
  (8 + o.lock.occupiedBytes + ((o.type_.map Script.occupiedBytes).getD 0) + dataLen)
    * 100000000

/-- `CellOutputBuilder::build_exact_capacity`: set the capacity to exactly
the occupied capacity for `dataLen` payload bytes. -/
def buildExactCapacity (o : CellOutput) (dataLen : Nat) : CellOutput :=
  { o with capacity := o.occupied_capacity dataLen }

/-! ## The wallet collaborator

The wallet lives outside the verified module (`crate::wallet`); it is
modelled at its interface boundary. Function-valued fields stand for its
queries; `fee_inputs` stands for the live cells it draws on during fee
completion. Out-point reservation (`lock_out_points`, `lock_tx_inputs`)
is a wallet-internal effect that does not alter any built transaction and
is not modelled. -/
structure Wallet where
  lock_script : Script
  address_display : String
  get_cell_output : OutPoint → CellOutput
  /-- Modelled from the spec: `collect_inputs(min_capacity)`, failing with a
  funding error when no collectible capacity can be supplied. -/
  collect_live_cells : Nat → Except DeployErr (List LiveCell)
  /-- Ledger lookup of a transaction by hash (query transport failures are
  out of scope; the source propagates them with `?`). -/
  query_transaction : H256 → Option Transaction
  send_transaction : Transaction → Except DeployErr Unit
  /-- The post-build `tx_check` collaborator (`super::tx_check`). -/
  tx_check : Transaction → Except DeployErr Unit
  fee_inputs : List LiveCell

/-- `complete_tx_lock_deps` only attaches the wallet's lock-script cell
deps; cell deps are not among the modelled transaction fields, so this is
the identity here. -/
def Wallet.complete_tx_lock_deps (_w : Wallet) (tx : Transaction) : Transaction :=
  tx

/-- Modelled from the spec: `complete_tx_inputs` adds whatever additional
capacity the transaction needs beyond the selected inputs' sum plus the
fee, sourced from the wallet's own live cells, and returns surplus
capacity in a change output locked to the wallet with empty data and no
type script. -/
def Wallet.complete_tx_inputs (w : Wallet) (tx : Transaction)
    (inputsCapacity fee : Nat) : Transaction :=
  let outCap := (tx.outputs.map CellOutput.capacity).sum
  let added := if inputsCapacity < outCap + fee then w.fee_inputs else []
  let total := inputsCapacity + (added.map LiveCell.capacity).sum
  let change := total - (outCap + fee)
  let tx := { tx with inputs := tx.inputs ++ added.map LiveCell.input }
  if 0 < change then
    { tx with outputs := tx.outputs ++ [⟨change, w.lock_script, none⟩],
              outputs_data := tx.outputs_data ++ [[]] }
  else tx

/-! ## Type-id scripts (deployment_process.rs, free functions) -/

/-- `TYPE_ID_CODE_HASH`: 25 zero bytes then the ASCII bytes of "TYPE_ID". -/
def TYPE_ID_CODE_HASH : H256 :=
  List.replicate 25 0 ++ [0x54, 0x59, 0x50, 0x45, 0x5f, 0x49, 0x44]

/-- `is_type_id_script`: code hash is `TYPE_ID_CODE_HASH` and the hash
type is `Type`. -/
def is_type_id_script (script : Script) : Bool :=
  decide (script.code_hash = TYPE_ID_CODE_HASH ∧ script.hash_type = HashType.type)

/-- `build_type_id_script`: blake2b over the serialized input concatenated
with the little-endian output index, wrapped with the type-id code hash
and `Type` hash type. -/
def build_type_id_script (input : CellInput) (output_index : Nat) : Script :=
  { code_hash := TYPE_ID_CODE_HASH
    hash_type := HashType.type
    args := ckbBlake2b (input.serialize ++ natToLeBytes 8 output_index) }

/-! ## The deployment process -/

/-- `DeploymentProcess`, plus the filesystem collaborator `fs` that
`load_deployable_cells_data` reads payload files through (path to bytes,
or the OS error message). -/
structure DeploymentProcess where
  wallet : Wallet
  tx_fee : Nat
  config : Deployment
  fs : String → Except String (List Nat)

/-- Loop body of `search_changes`: outputs with their data, enumerated
from `i`, kept when locked to `wlock` with empty data and no type script. -/
def searchChangesAux (wlock : Script) (tx_hash : H256) :
    Nat → List CellOutput → List (List Nat) → List LiveCell
  | _, [], _ => []
  | _, _ :: _, [] => []
  | i, o :: os, d :: ds =>
    if o.lock = wlock ∧ d = [] ∧ o.type_ = none then
      ⟨tx_hash, i, o.capacity, true⟩ :: searchChangesAux wlock tx_hash (i + 1) os ds
    else searchChangesAux wlock tx_hash (i + 1) os ds

/-- `search_changes`: the change outputs of a built transaction. -/
def DeploymentProcess.search_changes (st : DeploymentProcess) (tx : Transaction) :
    List LiveCell :=
  searchChangesAux st.wallet.lock_script tx.hash 0 tx.outputs tx.outputs_data

/-- The explicitly pre-selected input for `name`, when provided (the
`pre_inputs_cells.iter().find(..)` step of `build_recipe`). -/
def preSelectedInput (pre_inputs_cells : List (String × LiveCell)) (name : String) :
    List LiveCell :=
  match pre_inputs_cells.find? (fun p => decide (p.1 = name)) with
  | some p => [p.2]
  | none => []

/-- Candidate-input gathering, as inlined twice in `build_recipe`: the
explicitly pre-selected input for `name` (if any) followed by the change
outputs of the last transaction built so far (if any). -/
def DeploymentProcess.gather_inputs (st : DeploymentProcess)
    (pre_inputs_cells : List (String × LiveCell)) (name : String)
    (txs : List Transaction) : List LiveCell :=
  preSelectedInput pre_inputs_cells name ++
    match txs.getLast? with
    | some tx => st.search_changes tx
    | none => []

/-- `build_cell_tx`. Rust panics (`expect`, out-of-bounds indexing) are
modelled as `DeployErr.panicked`. -/
def DeploymentProcess.build_cell_tx (st : DeploymentProcess) (cell : Cell)
    (data : List Nat) (input_cells : List LiveCell) : Except DeployErr Transaction :=
  let lock := st.config.lock
  -- collect cells if inputs_cells is empty, type_id requires at least one input
  let collected :=
    if cell.enable_type_id && input_cells.isEmpty then
      st.wallet.collect_live_cells 1
    else Except.ok input_cells
  match collected with
  | .error e => .error e
  | .ok inputs_cells =>
    let outputRes : Except DeployErr CellOutput :=
      if cell.enable_type_id then
        match inputs_cells.head? with
        | none => .error (.panicked "index out of bounds")
        | some input_cell =>
          match st.wallet.query_transaction input_cell.tx_hash with
          | none => .error (.panicked "tx")
          | some qtx =>
            match qtx.outputs[input_cell.index]? with
            | none => .error (.panicked "output")
            | some input_cell_output =>
              -- inherit type id from input cell or create a new one
              let type_script :=
                match input_cell_output.type_ with
                | some script =>
                  if is_type_id_script script then script
                  else build_type_id_script input_cell.input 0
                | none => build_type_id_script input_cell.input 0
              .ok (buildExactCapacity ⟨0, lock, some type_script⟩ data.length)
      else
        .ok (buildExactCapacity ⟨0, lock, none⟩ data.length)
    match outputRes with
    | .error e => .error e
    | .ok output =>
      let tx : Transaction := ⟨inputs_cells.map LiveCell.input, [output], [data]⟩
      let tx := st.wallet.complete_tx_lock_deps tx
      let inputs_capacity := (inputs_cells.map LiveCell.capacity).sum
      .ok (st.wallet.complete_tx_inputs tx inputs_capacity st.tx_fee)

/-- Resolution of one dep-group entry (the closure inside
`build_dep_group_tx`, including its `find_cell` helper). -/
def DeploymentProcess.resolve_dep_out_point (st : DeploymentProcess)
    (cell_recipes : List CellRecipe) (dg_name name : String) :
    Except DeployErr OutPoint :=
  match st.config.cells.find? (fun c => decide (c.name = name)) with
  | none =>
    .error (.configErr ("Can't find Cell " ++ name ++
      " which referenced by DepGroup " ++ dg_name))
  | some cell =>
    match cell.location with
    | .file _ =>
      match cell_recipes.find? (fun c => decide (c.name = name)) with
      | none => .error (.panicked "must exists")
      | some cr => .ok ⟨cr.tx_hash, cr.index⟩
    | .outPoint tx_hash index => .ok ⟨tx_hash, index⟩

/-- The `collect::<Result<Vec<OutPoint>>>` over a dep group's cell names. -/
def DeploymentProcess.resolve_out_points (st : DeploymentProcess)
    (cell_recipes : List CellRecipe) (dg_name : String) :
    List String → Except DeployErr (List OutPoint)
  | [] => .ok []
  | name :: rest =>
    match st.resolve_dep_out_point cell_recipes dg_name name with
    | .error e => .error e
    | .ok op =>
      match st.resolve_out_points cell_recipes dg_name rest with
      | .error e => .error e
      | .ok ops => .ok (op :: ops)

/-- `build_dep_group_tx`. -/
def DeploymentProcess.build_dep_group_tx (st : DeploymentProcess)
    (cell_recipes : List CellRecipe) (dep_group : DepGroup)
    (input_cells : List LiveCell) : Except DeployErr Transaction :=
  match st.resolve_out_points cell_recipes dep_group.name dep_group.cells with
  | .error e => .error e
  | .ok out_points =>
    let data := serializeOutPointVec out_points
    let output := buildExactCapacity ⟨0, st.config.lock, none⟩ data.length
    let tx : Transaction := ⟨input_cells.map LiveCell.input, [output], [data]⟩
    let tx := st.wallet.complete_tx_lock_deps tx
    let inputs_capacity := (input_cells.map LiveCell.capacity).sum
    .ok (st.wallet.complete_tx_inputs tx inputs_capacity st.tx_fee)

/-- `build_cell_recipe`. The source indexes output 0 with `expect`; built
transactions always carry the principal output there, so defaults stand in
for the panic paths (`type_id` likewise maps the absent-type panic to
`none`, unreachable for transactions built with `enable_type_id`). -/
def build_cell_recipe (tx : Transaction) (cell : Cell) : CellRecipe :=
  let index := 0
  let cell_output := (tx.outputs[index]?).getD default
  let data := (tx.outputs_data[index]?).getD []
  { index := index
    name := cell.name
    data_hash := calc_data_hash data
    occupied_capacity := cell_output.occupied_capacity data.length
    tx_hash := tx.hash
    type_id :=
      if cell.enable_type_id then cell_output.type_.map Script.calc_script_hash
      else none }

/-- `build_dep_group_recipe`. -/
def build_dep_group_recipe (tx : Transaction) (dep_group : DepGroup) : DepGroupRecipe :=
  let index := 0
  let cell_output := (tx.outputs[index]?).getD default
  let data := (tx.outputs_data[index]?).getD []
  { index := index
    name := dep_group.name
    occupied_capacity := cell_output.occupied_capacity data.length
    tx_hash := tx.hash }

/-- The cell phase of `build_recipe`: per cell, gather candidate inputs,
build the transaction (its failure — `expect("cell deployment tx")` in the
source — aborts the run), and append transaction and recipe. -/
def DeploymentProcess.build_cells_loop (st : DeploymentProcess)
    (pre_inputs_cells : List (String × LiveCell)) :
    List (Cell × List Nat) → List Transaction → List CellRecipe →
      Except DeployErr (List Transaction × List CellRecipe)
  | [], txs, cell_recipes => .ok (txs, cell_recipes)
  | (cell, data) :: rest, txs, cell_recipes =>
    match st.build_cell_tx cell data (st.gather_inputs pre_inputs_cells cell.name txs) with
    | .error e => .error e
    | .ok tx =>
      st.build_cells_loop pre_inputs_cells rest (txs ++ [tx])
        (cell_recipes ++ [build_cell_recipe tx cell])

/-- The dep-group phase of `build_recipe`. -/
def DeploymentProcess.build_dep_groups_loop (st : DeploymentProcess)
    (pre_inputs_cells : List (String × LiveCell)) (cell_recipes : List CellRecipe) :
    List DepGroup → List Transaction → List DepGroupRecipe →
      Except DeployErr (List Transaction × List DepGroupRecipe)
  | [], txs, dep_group_recipes => .ok (txs, dep_group_recipes)
  | dep_group :: rest, txs, dep_group_recipes =>
    match st.build_dep_group_tx cell_recipes dep_group
        (st.gather_inputs pre_inputs_cells dep_group.name txs) with
    | .error e => .error e
    | .ok tx =>
      st.build_dep_groups_loop pre_inputs_cells cell_recipes rest (txs ++ [tx])
        (dep_group_recipes ++ [build_dep_group_recipe tx dep_group])

/-- `build_recipe`: cells first, then dep groups, then the manifest. -/
def DeploymentProcess.build_recipe (st : DeploymentProcess)
    (cells : List (Cell × List Nat)) (dep_groups : List DepGroup)
    (pre_inputs_cells : List (String × LiveCell)) :
    Except DeployErr (DeploymentRecipe × List Transaction) :=
  match st.build_cells_loop pre_inputs_cells cells [] [] with
  | .error e => .error e
  | .ok (txs, cell_recipes) =>
    match st.build_dep_groups_loop pre_inputs_cells cell_recipes dep_groups txs [] with
    | .error e => .error e
    | .ok (txs2, dep_group_recipes) => .ok (⟨cell_recipes, dep_group_recipes⟩, txs2)

/-- A rendering of a script for error messages (the source displays the
packed script; only the message's shape matters to the claims). -/
def scriptText (s : Script) : String :=
  String.intercalate " " ((s.code_hash ++ [s.hash_type.toByte] ++ s.args).map toString)

/-- The message of `check_pre_inputs_unlockable`'s error. -/
def unlockErrMsg (address name : String) (cellLock walletLock : Script) : String :=
  "Can't unlock previously deployed cells with address '" ++ address ++
    "'\ncell '" ++ name ++ "' uses lock:\n" ++ scriptText cellLock ++
    "\naddress's lock:\n" ++ scriptText walletLock ++
    "\n\nhint: update the lock field in `deployment.toml` or turn off migration with option `--migrate=off`"

/-- `check_pre_inputs_unlockable`: every pre-selected input must be locked
to the wallet's own lock script. -/
def DeploymentProcess.check_pre_inputs_unlockable (st : DeploymentProcess) :
    List (String × LiveCell) → Except DeployErr Unit
  | [] => .ok ()
  | (name, live_cell) :: rest =>
    let cell_output := st.wallet.get_cell_output live_cell.out_point
    let wallet_lock := st.wallet.lock_script
    if cell_output.lock = wallet_lock then
      st.check_pre_inputs_unlockable rest
    else
      .error (.configErr
        (unlockErrMsg st.wallet.address_display name cell_output.lock wallet_lock))

/-- `load_deployable_cells_data`. Note the source's open call: it opens the
hardcoded path "./build/release/my-sudt" (the open of `abs_path` is
commented out), while the failure report names `abs_path`, i.e.
"./" ++ the configured file. -/
def load_deployable_cells_data (fs : String → Except String (List Nat)) :
    List Cell → Except DeployErr (List (Cell × List Nat))
  | [] => .ok []
  | cell :: rest =>
    match cell.location with
    | .outPoint _ _ => load_deployable_cells_data fs rest
    | .file file =>
      let abs_path := "./" ++ file
      match fs "./build/release/my-sudt" with
      | .ok data =>
        match load_deployable_cells_data fs rest with
        | .ok tail => .ok ((cell, data) :: tail)
        | .error e => .error e
      | .error err => .error (.ioError abs_path err)

/-- The `tx_check` loop of `prepare_recipe`. -/
def checkTxs (check : Transaction → Except DeployErr Unit) :
    List Transaction → Except DeployErr Unit
  | [] => .ok ()
  | tx :: rest =>
    match check tx with
    | .error e => .error e
    | .ok _ => checkTxs check rest

/-- `prepare_recipe`: pre-input check, payload loading, building, and the
per-transaction check. -/
def DeploymentProcess.prepare_recipe (st : DeploymentProcess)
    (pre_inputs_cells : List (String × LiveCell)) :
    Except DeployErr (DeploymentRecipe × List Transaction) :=
  match st.check_pre_inputs_unlockable pre_inputs_cells with
  | .error e => .error e
  | .ok _ =>
    match load_deployable_cells_data st.fs st.config.cells with
    | .error e => .error e
    | .ok cells =>
      match st.build_recipe cells st.config.dep_groups pre_inputs_cells with
      | .error e => .error e
      | .ok (recipe, txs) =>
        match checkTxs st.wallet.tx_check txs with
        | .error e => .error e
        | .ok _ => .ok (recipe, txs)

/-- The cell phase of `execute_recipe`: every cell transaction is located
by hash and submitted, with no pre-submission ledger query (that query is
commented out in the source). Returns the submitted hashes in order. -/
def executeCells (w : Wallet) (txs : List Transaction) :
    List CellRecipe → Except DeployErr (List H256)
  | [] => .ok []
  | cell_recipe :: rest =>
    match txs.find? (fun tx => decide (cell_recipe.tx_hash = tx.hash)) with
    | none => .error (.panicked "missing recipe tx")
    | some tx =>
      match w.send_transaction tx with
      | .error e => .error e
      | .ok _ =>
        match executeCells w txs rest with
        | .error e => .error e
        | .ok hs => .ok (tx.hash :: hs)

/-- The dep-group phase of `execute_recipe`: a dep-group transaction whose
hash the ledger already knows is skipped; otherwise it is located and
submitted. Returns the submitted hashes in order. -/
def executeDepGroups (w : Wallet) (txs : List Transaction) :
    List DepGroupRecipe → Except DeployErr (List H256)
  | [] => .ok []
  | dep_group_recipe :: rest =>
    if (w.query_transaction dep_group_recipe.tx_hash).isSome then
      executeDepGroups w txs rest
    else
      match txs.find? (fun tx => decide (dep_group_recipe.tx_hash = tx.hash)) with
      | none => .error (.panicked "missing recipe tx")
      | some tx =>
        match w.send_transaction tx with
        | .error e => .error e
        | .ok _ =>
          match executeDepGroups w txs rest with
          | .error e => .error e
          | .ok hs => .ok (tx.hash :: hs)

/-- `execute_recipe`, instrumented to return the submitted transaction
hashes in submission order (the source returns unit; the progress counter
only affects printing). -/
def DeploymentProcess.execute_recipe (st : DeploymentProcess)
    (recipe : DeploymentRecipe) (txs : List Transaction) :
    Except DeployErr (List H256) :=
  match executeCells st.wallet txs recipe.cell_recipes with
  | .error e => .error e
  | .ok cellSubs =>
    match executeDepGroups st.wallet txs recipe.dep_group_recipes with
    | .error e => .error e
    | .ok depSubs => .ok (cellSubs ++ depSubs)

/-! ## Shared helper lemmas -/

deriving instance DecidableEq for Except

/-- Membership in `searchChangesAux`: exactly the enumerated outputs that
are locked to `wlock`, carry empty data and carry no type script. -/
theorem mem_searchChangesAux (wlock : Script) (th : H256) :
    ∀ (os : List CellOutput) (ds : List (List Nat)) (i : Nat) (lc : LiveCell),
      lc ∈ searchChangesAux wlock th i os ds ↔
        ∃ j o d, os[j]? = some o ∧ ds[j]? = some d ∧
          o.lock = wlock ∧ d = [] ∧ o.type_ = none ∧
          lc = ⟨th, i + j, o.capacity, true⟩
  | [], ds, i, lc => by simp [searchChangesAux]
  | o :: os, [], i, lc => by simp [searchChangesAux]
  | o :: os, d :: ds, i, lc => by
    rw [searchChangesAux]
    split
    · rename_i hcond
      obtain ⟨h1, h2, h3⟩ := hcond
      rw [List.mem_cons, mem_searchChangesAux wlock th os ds (i + 1) lc]
      constructor
      · rintro (rfl | ⟨j, o', d', hj1, hj2, hj3, hj4, hj5, hj6⟩)
        · exact ⟨0, o, d, by simp, by simp, h1, h2, h3, by simp⟩
        · exact ⟨j + 1, o', d', by simpa using hj1, by simpa using hj2, hj3, hj4, hj5,
            by simpa [Nat.add_assoc, Nat.add_comm 1 j] using hj6⟩
      · rintro ⟨j, o', d', hj1, hj2, hj3, hj4, hj5, hj6⟩
        cases j with
        | zero =>
          left
          simp only [List.getElem?_cons_zero, Option.some.injEq] at hj1 hj2
          subst hj1; subst hj2
          simpa using hj6
        | succ j =>
          right
          exact ⟨j, o', d', by simpa using hj1, by simpa using hj2, hj3, hj4, hj5,
            by simpa [Nat.add_assoc, Nat.add_comm 1 j] using hj6⟩
    · rename_i hcond
      rw [mem_searchChangesAux wlock th os ds (i + 1) lc]
      constructor
      · rintro ⟨j, o', d', hj1, hj2, hj3, hj4, hj5, hj6⟩
        exact ⟨j + 1, o', d', by simpa using hj1, by simpa using hj2, hj3, hj4, hj5,
          by simpa [Nat.add_assoc, Nat.add_comm 1 j] using hj6⟩
      · rintro ⟨j, o', d', hj1, hj2, hj3, hj4, hj5, hj6⟩
        cases j with
        | zero =>
          simp only [List.getElem?_cons_zero, Option.some.injEq] at hj1 hj2
          subst hj1; subst hj2
          exact absurd ⟨hj3, hj4, hj5⟩ hcond
        | succ j =>
          exact ⟨j, o', d', by simpa using hj1, by simpa using hj2, hj3, hj4, hj5,
            by simpa [Nat.add_assoc, Nat.add_comm 1 j] using hj6⟩

/-! ## Claim C1 -/

/-- A filesystem on which the configured payload file is readable while
the hardcoded path "./build/release/my-sudt" is not. -/
def demoFsA : String → Except String (List Nat) := fun path =>
  if path = "./mycell.bin" then .ok [1, 2, 3]
  else .error "No such file or directory (os error 2)"

/-- A cell whose payload is configured to come from "mycell.bin". -/
def demoFileCell : Cell := ⟨"mycell", false, .file "mycell.bin"⟩

/-- Claim C1: building the recipe should read the payload bytes from the
cell's configured file path and, on failure, report the attempted path.
The code violates this: with the configured path "./mycell.bin" readable,
loading still fails because the source opens the hardcoded path
"./build/release/my-sudt" (the open of the configured path is commented
out), and the failure report names "./mycell.bin" — a path it never
attempted. -/
theorem claim_c1_load_ignores_configured_path :
    demoFsA "./mycell.bin" = .ok [1, 2, 3] ∧
    demoFsA "./build/release/my-sudt" =
      .error "No such file or directory (os error 2)" ∧
    load_deployable_cells_data demoFsA [demoFileCell] =
      .error (.ioError "./mycell.bin" "No such file or directory (os error 2)") := by
  refine ⟨by decide, by decide, ?_⟩
  decide

/-! ## Claim C10 -/

/-- Claim C10: every `LiveCell` the change tracker produces from a
just-built transaction is marked `mature = true`, so unconfirmed change is
presented to the next batch step as immediately spendable. -/
theorem claim_c10_search_changes_mature (st : DeploymentProcess)
    (tx : Transaction) (lc : LiveCell)
    (h : lc ∈ st.search_changes tx) : lc.mature = true := by
  rcases (mem_searchChangesAux st.wallet.lock_script tx.hash
      tx.outputs tx.outputs_data 0 lc).mp h with ⟨j, o, d, _, _, _, _, _, rfl⟩
  rfl

/-- A sample wallet lock script. -/
def demoLockB : Script := ⟨List.replicate 32 3, .data, []⟩

/-- A sample wallet whose queries are inert. -/
def demoWalletB : Wallet :=
  { lock_script := demoLockB
    address_display := "ckb1demo"
    get_cell_output := fun _ => ⟨0, demoLockB, none⟩
    collect_live_cells := fun _ => .ok []
    query_transaction := fun _ => none
    send_transaction := fun _ => .ok ()
    tx_check := fun _ => .ok ()
    fee_inputs := [] }

/-- A sample process over `demoWalletB`. -/
def demoStB : DeploymentProcess := ⟨demoWalletB, 0, ⟨demoLockB, [], []⟩, fun _ => .error "unused"⟩

/-- A transaction with one change-shaped output (wallet lock, empty data,
no type script). -/
def demoChangeTx : Transaction := ⟨[], [⟨700, demoLockB, none⟩], [[]]⟩

theorem claim_c10_witness :
    (⟨demoChangeTx.hash, 0, 700, true⟩ : LiveCell).mature = true := by
  apply claim_c10_search_changes_mature demoStB demoChangeTx
  rw [DeploymentProcess.search_changes, mem_searchChangesAux]
  exact ⟨0, ⟨700, demoLockB, none⟩, [], by simp [demoChangeTx], by simp [demoChangeTx],
    rfl, rfl, rfl, rfl⟩

/-! ## Claim C4 -/

/-- Claim C4: the type-id derivation is a pure function computing a
32-byte digest over the byte encoding of the first input concatenated with
the little-endian encoding of the output index, wrapped with the type-id
code hash and the `Type` hash type; derivations agree whenever the first
input (as encoded) and the output index agree. -/
theorem claim_c4_build_type_id_script_spec (input : CellInput) (output_index : Nat) :
    (build_type_id_script input output_index).code_hash = TYPE_ID_CODE_HASH ∧
    (build_type_id_script input output_index).hash_type = HashType.type ∧
    (build_type_id_script input output_index).args =
      ckbBlake2b (input.serialize ++ natToLeBytes 8 output_index) ∧
    (build_type_id_script input output_index).args.length = 32 ∧
    ∀ input2 : CellInput, input2.serialize = input.serialize →
      build_type_id_script input2 0 = build_type_id_script input 0 :=
  ⟨rfl, rfl, rfl, ckbBlake2b_length _,
   fun _ h => by simp [build_type_id_script, h]⟩

/-- A sample first input for the type-id witnesses. -/
def demoInput : CellInput := ⟨0, ⟨List.replicate 32 0, 0⟩⟩

theorem claim_c4_witness :
    (build_type_id_script demoInput 0).args.length = 32 ∧
    build_type_id_script demoInput 0 = build_type_id_script demoInput 0 :=
  ⟨(claim_c4_build_type_id_script_spec demoInput 0).2.2.2.1,
   (claim_c4_build_type_id_script_spec demoInput 0).2.2.2.2 demoInput rfl⟩

/-! ## Claim C8 -/

/-- Claim C8: with `enable_type_id` set and no candidate inputs, the cell
builder falls back to a minimal-capacity (one shannon) coin-selection
query against the wallet; when the wallet cannot supply any input, the
funding error it reports is propagated and the build of the recipe fails
with it. -/
theorem claim_c8_type_id_funding_fallback (st : DeploymentProcess) (cell : Cell)
    (data : List Nat) (e : DeployErr)
    (henable : cell.enable_type_id = true)
    (hcollect : st.wallet.collect_live_cells 1 = .error e) :
    st.build_cell_tx cell data [] = .error e ∧
    ∀ dep_groups pre_inputs_cells,
      (∀ p ∈ pre_inputs_cells, p.1 ≠ cell.name) →
      st.build_recipe [(cell, data)] dep_groups pre_inputs_cells = .error e := by
  have h1 : st.build_cell_tx cell data [] = .error e := by
    simp [DeploymentProcess.build_cell_tx, henable, hcollect]
  refine ⟨h1, ?_⟩
  intro dgs pre hpre
  have hfind : pre.find? (fun p => decide (p.1 = cell.name)) = none := by
    rw [List.find?_eq_none]
    intro p hp
    simpa using hpre p hp
  have hgather : st.gather_inputs pre cell.name [] = [] := by
    simp [DeploymentProcess.gather_inputs, preSelectedInput, hfind]
  rw [DeploymentProcess.build_recipe, DeploymentProcess.build_cells_loop, hgather, h1]

/-- A wallet that cannot collect any live cell. -/
def demoWalletC : Wallet :=
  { demoWalletB with
    collect_live_cells := fun _ => .error (.funding "live cells not enough") }

/-- A process over `demoWalletC`. -/
def demoStC : DeploymentProcess := ⟨demoWalletC, 0, ⟨demoLockB, [], []⟩, fun _ => .error "unused"⟩

/-- A type-id cell spec. -/
def demoCellC : Cell := ⟨"sudt", true, .file "sudt.bin"⟩

theorem claim_c8_witness :
    demoStC.build_cell_tx demoCellC [1] [] = .error (.funding "live cells not enough") ∧
    demoStC.build_recipe [(demoCellC, [1])] [] [] =
      .error (.funding "live cells not enough") := by
  obtain ⟨h1, h2⟩ := claim_c8_type_id_funding_fallback demoStC demoCellC [1]
    (.funding "live cells not enough") rfl rfl
  exact ⟨h1, h2 [] [] (by simp)⟩

/-! ## Claim C9 -/

/-- `check_pre_inputs_unlockable` fails on some mismatched pre-selected
input whenever one exists, with the error naming that input. -/
theorem check_pre_inputs_err (st : DeploymentProcess) :
    ∀ (pre : List (String × LiveCell)) (name : String) (lc : LiveCell),
      (name, lc) ∈ pre →
      (st.wallet.get_cell_output lc.out_point).lock ≠ st.wallet.lock_script →
      ∃ n2 l2, (n2, l2) ∈ pre ∧
        (st.wallet.get_cell_output l2.out_point).lock ≠ st.wallet.lock_script ∧
        st.check_pre_inputs_unlockable pre =
          .error (.configErr (unlockErrMsg st.wallet.address_display n2
            (st.wallet.get_cell_output l2.out_point).lock st.wallet.lock_script))
  | [], name, lc, hmem, _ => by simp at hmem
  | (n, l) :: rest, name, lc, hmem, hbad => by
    by_cases hh : (st.wallet.get_cell_output l.out_point).lock = st.wallet.lock_script
    · have hrest : (name, lc) ∈ rest := by
        rcases List.mem_cons.mp hmem with heq | hmem2
        · cases heq
          exact absurd hh hbad
        · exact hmem2
      obtain ⟨n2, l2, h1, h2, h3⟩ := check_pre_inputs_err st rest name lc hrest hbad
      refine ⟨n2, l2, List.mem_cons_of_mem _ h1, h2, ?_⟩
      rw [DeploymentProcess.check_pre_inputs_unlockable, if_pos hh]
      exact h3
    · refine ⟨n, l, List.mem_cons_self _ _, hh, ?_⟩
      rw [DeploymentProcess.check_pre_inputs_unlockable, if_neg hh]

/-- Claim C9: before any transaction is built, every explicitly
pre-selected input is checked to be spendable by the deployer's own lock
script; a mismatch makes `prepare_recipe` fail fast with a descriptive
error naming a mismatched artifact, so no transactions are produced. -/
theorem claim_c9_pre_input_lock_check (st : DeploymentProcess)
    (pre : List (String × LiveCell)) (name : String) (lc : LiveCell)
    (hmem : (name, lc) ∈ pre)
    (hbad : (st.wallet.get_cell_output lc.out_point).lock ≠ st.wallet.lock_script) :
    ∃ n2 l2, (n2, l2) ∈ pre ∧
      (st.wallet.get_cell_output l2.out_point).lock ≠ st.wallet.lock_script ∧
      st.check_pre_inputs_unlockable pre =
        .error (.configErr (unlockErrMsg st.wallet.address_display n2
          (st.wallet.get_cell_output l2.out_point).lock st.wallet.lock_script)) ∧
      st.prepare_recipe pre =
        .error (.configErr (unlockErrMsg st.wallet.address_display n2
          (st.wallet.get_cell_output l2.out_point).lock st.wallet.lock_script)) := by
  obtain ⟨n2, l2, h1, h2, h3⟩ := check_pre_inputs_err st pre name lc hmem hbad
  exact ⟨n2, l2, h1, h2, h3, by rw [DeploymentProcess.prepare_recipe, h3]⟩

/-- A lock script different from `demoLockB`. -/
def demoLockD : Script := ⟨List.replicate 32 9, .data, []⟩

/-- A wallet whose on-ledger cells are locked to `demoLockD`, not to its
own lock. -/
def demoWalletD : Wallet :=
  { demoWalletB with get_cell_output := fun _ => ⟨0, demoLockD, none⟩ }

/-- A process over `demoWalletD`. -/
def demoStD : DeploymentProcess := ⟨demoWalletD, 0, ⟨demoLockB, [], []⟩, fun _ => .error "unused"⟩

/-- A pre-selected live cell. -/
def demoPreLC : LiveCell := ⟨List.replicate 32 4, 0, 100, true⟩

theorem claim_c9_witness :
    ∃ n2 l2, (n2, l2) ∈ [("mycell", demoPreLC)] ∧
      (demoStD.wallet.get_cell_output l2.out_point).lock ≠ demoStD.wallet.lock_script ∧
      demoStD.check_pre_inputs_unlockable [("mycell", demoPreLC)] =
        .error (.configErr (unlockErrMsg demoStD.wallet.address_display n2
          (demoStD.wallet.get_cell_output l2.out_point).lock demoStD.wallet.lock_script)) ∧
      demoStD.prepare_recipe [("mycell", demoPreLC)] =
        .error (.configErr (unlockErrMsg demoStD.wallet.address_display n2
          (demoStD.wallet.get_cell_output l2.out_point).lock demoStD.wallet.lock_script)) :=
  claim_c9_pre_input_lock_check demoStD [("mycell", demoPreLC)] "mycell" demoPreLC
    (by simp) (by decide)

/-! ## Claim C7 -/

/-- If one of the names always fails to resolve, the whole out-point list
fails to resolve. -/
theorem resolve_out_points_err (st : DeploymentProcess) (r : List CellRecipe)
    (dgn name : String)
    (herr : ∃ e, st.resolve_dep_out_point r dgn name = .error e) :
    ∀ names : List String, name ∈ names →
      ∃ e, st.resolve_out_points r dgn names = .error e
  | [], hmem => by simp at hmem
  | m :: rest, hmem => by
    rw [DeploymentProcess.resolve_out_points]
    cases hm : st.resolve_dep_out_point r dgn m with
    | error e => exact ⟨e, rfl⟩
    | ok op =>
      have hrest : name ∈ rest := by
        rcases List.mem_cons.mp hmem with rfl | h2
        · obtain ⟨e, he⟩ := herr
          rw [hm] at he
          exact absurd he (by simp)
        · exact h2
      obtain ⟨e, he⟩ := resolve_out_points_err st r dgn name herr rest hrest
      rw [he]
      exact ⟨e, rfl⟩

/-- A successful dep-group phase built every declared dep group. -/
theorem build_dep_groups_loop_ok (st : DeploymentProcess)
    (pre : List (String × LiveCell)) (cell_recipes : List CellRecipe) :
    ∀ (dgs : List DepGroup) (txs0 : List Transaction) (recs0 : List DepGroupRecipe)
      (txs : List Transaction) (recs : List DepGroupRecipe),
      st.build_dep_groups_loop pre cell_recipes dgs txs0 recs0 = .ok (txs, recs) →
      ∀ dg ∈ dgs, ∃ inputs tx, st.build_dep_group_tx cell_recipes dg inputs = .ok tx
  | [], _, _, _, _ => by
    intro _ dg hdg
    simp at hdg
  | dg0 :: rest, txs0, recs0, txs, recs => by
    intro h dg hdg
    rw [DeploymentProcess.build_dep_groups_loop] at h
    cases hb : st.build_dep_group_tx cell_recipes dg0
        (st.gather_inputs pre dg0.name txs0) with
    | error e => rw [hb] at h; exact absurd h (by simp)
    | ok tx0 =>
      rw [hb] at h
      rcases List.mem_cons.mp hdg with rfl | h2
      · exact ⟨_, tx0, hb⟩
      · exact build_dep_groups_loop_ok st pre cell_recipes rest _ _ txs recs h dg h2

/-- A successful `build_recipe` ran a successful dep-group phase. -/
theorem build_recipe_ok_dep_loop (st : DeploymentProcess)
    (cells : List (Cell × List Nat)) (dgs : List DepGroup)
    (pre : List (String × LiveCell)) (recipe : DeploymentRecipe)
    (txs : List Transaction)
    (h : st.build_recipe cells dgs pre = .ok (recipe, txs)) :
    ∃ cell_recipes txs0 txs2 dgr,
      st.build_dep_groups_loop pre cell_recipes dgs txs0 [] = .ok (txs2, dgr) := by
  rw [DeploymentProcess.build_recipe] at h
  cases hc : st.build_cells_loop pre cells [] [] with
  | error e => rw [hc] at h; exact absurd h (by simp)
  | ok p =>
    obtain ⟨txs0, crs⟩ := p
    simp only [hc] at h
    cases hd : st.build_dep_groups_loop pre crs dgs txs0 [] with
    | error e => simp [hd] at h
    | ok q =>
      obtain ⟨txs2, dgr⟩ := q
      exact ⟨crs, txs0, txs2, dgr, hd⟩

/-- A successful `prepare_recipe` ran a successful `build_recipe` over the
configured dep groups. -/
theorem prepare_recipe_ok_build (st : DeploymentProcess)
    (pre : List (String × LiveCell)) (recipe : DeploymentRecipe)
    (txs : List Transaction)
    (h : st.prepare_recipe pre = .ok (recipe, txs)) :
    ∃ cells r2, st.build_recipe cells st.config.dep_groups pre = .ok r2 := by
  rw [DeploymentProcess.prepare_recipe] at h
  cases h0 : st.check_pre_inputs_unlockable pre with
  | error e => rw [h0] at h; exact absurd h (by simp)
  | ok u =>
    simp only [h0] at h
    cases h1 : load_deployable_cells_data st.fs st.config.cells with
    | error e => simp [h1] at h
    | ok cells =>
      simp only [h1] at h
      cases h2 : st.build_recipe cells st.config.dep_groups pre with
      | error e => simp [h2] at h
      | ok r2 => exact ⟨cells, r2, h2⟩

/-- Claim C7: a dep group referencing a cell name that no configured cell
carries makes the dep-group builder fail with a fatal error naming the
offending cell and dep group; with that dep group configured, the whole
preparation fails, so nothing is ever handed to the executor for
submission. -/
theorem claim_c7_dep_group_unknown_cell (st : DeploymentProcess) (dg : DepGroup)
    (name : String)
    (hmem : name ∈ dg.cells)
    (habsent : ∀ c ∈ st.config.cells, c.name ≠ name) :
    (∀ cell_recipes,
      st.resolve_dep_out_point cell_recipes dg.name name =
        .error (.configErr ("Can't find Cell " ++ name ++
          " which referenced by DepGroup " ++ dg.name))) ∧
    (∀ cell_recipes input_cells, ∃ e,
      st.build_dep_group_tx cell_recipes dg input_cells = .error e) ∧
    (dg ∈ st.config.dep_groups →
      ∀ pre, ¬ ∃ r, st.prepare_recipe pre = .ok r) := by
  have hfind : st.config.cells.find? (fun c => decide (c.name = name)) = none := by
    rw [List.find?_eq_none]
    intro c hc
    simpa using habsent c hc
  have hres : ∀ r, st.resolve_dep_out_point r dg.name name =
      .error (.configErr ("Can't find Cell " ++ name ++
        " which referenced by DepGroup " ++ dg.name)) := by
    intro r
    rw [DeploymentProcess.resolve_dep_out_point, hfind]
  have hbuild : ∀ cell_recipes input_cells, ∃ e,
      st.build_dep_group_tx cell_recipes dg input_cells = .error e := by
    intro r inputs
    obtain ⟨e, he⟩ := resolve_out_points_err st r dg.name name ⟨_, hres r⟩
      dg.cells hmem
    exact ⟨e, by rw [DeploymentProcess.build_dep_group_tx, he]⟩
  refine ⟨hres, hbuild, ?_⟩
  rintro hdg pre ⟨⟨recipe, txs⟩, hok⟩
  obtain ⟨cells, ⟨r2a, r2b⟩, hb⟩ := prepare_recipe_ok_build st pre recipe txs hok
  obtain ⟨cr, txs0, txs2, dgr, hloop⟩ :=
    build_recipe_ok_dep_loop st cells st.config.dep_groups pre r2a r2b hb
  obtain ⟨inputs, tx, htx⟩ :=
    build_dep_groups_loop_ok st pre cr st.config.dep_groups txs0 [] txs2 dgr hloop dg hdg
  obtain ⟨e, he⟩ := hbuild cr inputs
  rw [htx] at he
  exact absurd he (by simp)

/-- A process configured with one dep group that references a cell name
absent from the (empty) cell list. -/
def demoStE : DeploymentProcess :=
  ⟨demoWalletB, 0, ⟨demoLockB, [], [⟨"badgroup", ["ghost"]⟩]⟩, fun _ => .error "unused"⟩

theorem claim_c7_witness :
    (∀ cell_recipes,
      demoStE.resolve_dep_out_point cell_recipes "badgroup" "ghost" =
        .error (.configErr ("Can't find Cell " ++ "ghost" ++
          " which referenced by DepGroup " ++ "badgroup"))) ∧
    (∀ cell_recipes input_cells, ∃ e,
      demoStE.build_dep_group_tx cell_recipes ⟨"badgroup", ["ghost"]⟩ input_cells =
        .error e) ∧
    ((⟨"badgroup", ["ghost"]⟩ : DepGroup) ∈ demoStE.config.dep_groups →
      ∀ pre, ¬ ∃ r, demoStE.prepare_recipe pre = .ok r) :=
  claim_c7_dep_group_unknown_cell demoStE ⟨"badgroup", ["ghost"]⟩ "ghost"
    (by simp) (by simp [demoStE])

/-! ## Claim C2 -/

/-- The cell phase submits every cell recipe's transaction, in order,
regardless of what the ledger already knows. -/
theorem executeCells_spec (w : Wallet) (txs : List Transaction)
    (hsend : ∀ tx, w.send_transaction tx = .ok ()) :
    ∀ crs : List CellRecipe,
      (∀ cr ∈ crs, ∃ tx ∈ txs, tx.hash = cr.tx_hash) →
      executeCells w txs crs = .ok (crs.map CellRecipe.tx_hash)
  | [] => fun _ => rfl
  | cr :: rest => by
    intro h
    have hex : ∃ tx ∈ txs, (fun tx => decide (cr.tx_hash = tx.hash)) tx := by
      obtain ⟨tx, htx, hh⟩ := h cr (List.mem_cons_self _ _)
      exact ⟨tx, htx, by simpa using hh.symm⟩
    obtain ⟨tx', hfind⟩ := Option.isSome_iff_exists.mp (List.find?_isSome.mpr hex)
    have hhash : cr.tx_hash = tx'.hash := by simpa using List.find?_some hfind
    have hrest := executeCells_spec w txs hsend rest
      (fun c hc => h c (List.mem_cons_of_mem _ hc))
    simp only [executeCells, hfind, hsend tx', hrest, List.map_cons]
    simp [hhash]

/-- The dep-group phase submits exactly the dep groups whose hash the
ledger query does not know, in order. -/
theorem executeDepGroups_spec (w : Wallet) (txs : List Transaction)
    (hsend : ∀ tx, w.send_transaction tx = .ok ()) :
    ∀ dgs : List DepGroupRecipe,
      (∀ dg ∈ dgs, w.query_transaction dg.tx_hash = none →
        ∃ tx ∈ txs, tx.hash = dg.tx_hash) →
      executeDepGroups w txs dgs =
        .ok ((dgs.filter (fun dg => (w.query_transaction dg.tx_hash).isNone)).map
          DepGroupRecipe.tx_hash)
  | [] => fun _ => rfl
  | dg :: rest => by
    intro h
    have hrest := executeDepGroups_spec w txs hsend rest
      (fun d hd => h d (List.mem_cons_of_mem _ hd))
    cases hq : w.query_transaction dg.tx_hash with
    | some t =>
      simp only [executeDepGroups, hq, Option.isSome_some, if_true, hrest]
      simp [List.filter_cons, hq]
    | none =>
      obtain ⟨tx0, htx0, hh⟩ := h dg (List.mem_cons_self _ _) hq
      have hex : ∃ tx ∈ txs, (fun tx => decide (dg.tx_hash = tx.hash)) tx :=
        ⟨tx0, htx0, by simpa using hh.symm⟩
      obtain ⟨tx', hfind⟩ := Option.isSome_iff_exists.mp (List.find?_isSome.mpr hex)
      have hhash : dg.tx_hash = tx'.hash := by simpa using List.find?_some hfind
      simp only [executeDepGroups, hq, Option.isSome_none, Bool.false_eq_true, if_false,
        hfind, hsend tx', hrest]
      rw [List.filter_cons]
      simp only [hq, Option.isNone_none, if_true, List.map_cons]
      simp [hhash]

/-- Claim C2: every cell transaction is submitted unconditionally (with no
pre-submission existence query — the submitted set does not depend on the
ledger's knowledge of the cell hashes), while a dep-group transaction is
submitted only when a ledger query for its hash returns nothing; in
particular, when every dep-group hash is already known (as on a second
execute call over a fully confirmed recipe), zero dep-group submissions
are performed. -/
theorem claim_c2_execute_submission_policy (st : DeploymentProcess)
    (recipe : DeploymentRecipe) (txs : List Transaction)
    (hsend : ∀ tx, st.wallet.send_transaction tx = .ok ())
    (hcell : ∀ cr ∈ recipe.cell_recipes, ∃ tx ∈ txs, tx.hash = cr.tx_hash)
    (hdep : ∀ dg ∈ recipe.dep_group_recipes,
      st.wallet.query_transaction dg.tx_hash = none →
        ∃ tx ∈ txs, tx.hash = dg.tx_hash) :
    st.execute_recipe recipe txs =
      .ok (recipe.cell_recipes.map CellRecipe.tx_hash ++
        (recipe.dep_group_recipes.filter
          (fun dg => (st.wallet.query_transaction dg.tx_hash).isNone)).map
          DepGroupRecipe.tx_hash) ∧
    ((∀ dg ∈ recipe.dep_group_recipes,
        (st.wallet.query_transaction dg.tx_hash).isSome) →
      st.execute_recipe recipe txs =
        .ok (recipe.cell_recipes.map CellRecipe.tx_hash)) := by
  have h1 := executeCells_spec st.wallet txs hsend recipe.cell_recipes hcell
  have h2 := executeDepGroups_spec st.wallet txs hsend recipe.dep_group_recipes hdep
  have hmain : st.execute_recipe recipe txs =
      .ok (recipe.cell_recipes.map CellRecipe.tx_hash ++
        (recipe.dep_group_recipes.filter
          (fun dg => (st.wallet.query_transaction dg.tx_hash).isNone)).map
          DepGroupRecipe.tx_hash) := by
    rw [DeploymentProcess.execute_recipe]
    simp only [h1, h2]
  refine ⟨hmain, fun hall => ?_⟩
  have hfil : recipe.dep_group_recipes.filter
      (fun dg => (st.wallet.query_transaction dg.tx_hash).isNone) = [] := by
    rw [List.filter_eq_nil_iff]
    intro dg hdg
    have hs := hall dg hdg
    cases hq : st.wallet.query_transaction dg.tx_hash with
    | none => rw [hq] at hs; simp at hs
    | some t => simp [hq]
  rw [hmain, hfil]
  simp

/-- A sample cell deployment transaction. -/
def demoCellTxF : Transaction := ⟨[], [⟨100, demoLockB, none⟩], [[5]]⟩

/-- A sample dep-group transaction. -/
def demoDepTxF : Transaction := ⟨[], [⟨200, demoLockB, none⟩], [[6]]⟩

/-- A wallet whose ledger already knows every queried hash. -/
def demoWalletF : Wallet :=
  { demoWalletB with query_transaction := fun _ => some demoDepTxF }

/-- A process over `demoWalletF`. -/
def demoStF : DeploymentProcess := ⟨demoWalletF, 0, ⟨demoLockB, [], []⟩, fun _ => .error "unused"⟩

/-- A recipe of one cell and one (already confirmed) dep group. -/
def demoRecipeF : DeploymentRecipe :=
  ⟨[⟨0, "sudt", List.replicate 32 0, 0, demoCellTxF.hash, none⟩],
   [⟨0, "group", 0, demoDepTxF.hash⟩]⟩

theorem claim_c2_witness :
    demoStF.execute_recipe demoRecipeF [demoCellTxF, demoDepTxF] =
      .ok [demoCellTxF.hash] := by
  have h := claim_c2_execute_submission_policy demoStF demoRecipeF
    [demoCellTxF, demoDepTxF]
    (fun tx => rfl)
    (by
      intro cr hcr
      simp only [demoRecipeF, List.mem_singleton] at hcr
      subst hcr
      exact ⟨demoCellTxF, by simp, rfl⟩)
    (by
      intro dg hdg hq
      simp [demoStF, demoWalletF, demoWalletB] at hq)
  simpa [demoRecipeF] using h.2 (by intro dg hdg; simp [demoStF, demoWalletF, demoWalletB])

/-! ## Claim C6 -/

/-- Fee completion keeps the principal output and its data at index 0. -/
theorem complete_tx_inputs_principal (w : Wallet) (ins : List CellInput)
    (o : CellOutput) (d : List Nat) (c f : Nat) :
    (w.complete_tx_inputs ⟨ins, [o], [d]⟩ c f).outputs[0]? = some o ∧
    (w.complete_tx_inputs ⟨ins, [o], [d]⟩ c f).outputs_data[0]? = some d := by
  rw [Wallet.complete_tx_inputs]
  split <;> split <;> simp

/-- A successfully resolved out-point list has one entry per name, in
order, each the resolution of its name. -/
theorem resolve_out_points_spec (st : DeploymentProcess) (r : List CellRecipe)
    (dgn : String) :
    ∀ (names : List String) (ops : List OutPoint),
      st.resolve_out_points r dgn names = .ok ops →
      ops.length = names.length ∧
      ∀ (k : Nat) (name : String), names[k]? = some name →
        ∃ op, ops[k]? = some op ∧ st.resolve_dep_out_point r dgn name = .ok op
  | [], ops => by
    intro h
    rw [DeploymentProcess.resolve_out_points] at h
    obtain rfl : ops = [] := by simpa using h.symm
    exact ⟨rfl, by intro k name hk; simp at hk⟩
  | name0 :: rest, ops => by
    intro h
    rw [DeploymentProcess.resolve_out_points] at h
    cases h0 : st.resolve_dep_out_point r dgn name0 with
    | error e => simp [h0] at h
    | ok op0 =>
      simp only [h0] at h
      cases h1 : st.resolve_out_points r dgn rest with
      | error e => simp [h1] at h
      | ok ops2 =>
        simp only [h1] at h
        obtain rfl : ops = op0 :: ops2 := by simpa using h.symm
        obtain ⟨hlen, hpt⟩ := resolve_out_points_spec st r dgn rest ops2 h1
        refine ⟨by simp [hlen], ?_⟩
        intro k name hk
        cases k with
        | zero =>
          simp only [List.getElem?_cons_zero, Option.some.injEq] at hk
          subst hk
          exact ⟨op0, by simp, h0⟩
        | succ k =>
          obtain ⟨op, hop, hres⟩ := hpt k name (by simpa using hk)
          exact ⟨op, by simpa using hop, hres⟩

/-- A successful per-name resolution comes from the configured cell of
that name: a same-batch cell recipe for file-located cells, the spec's own
out-point otherwise. -/
theorem resolve_dep_out_point_ok (st : DeploymentProcess) (r : List CellRecipe)
    (dgn name : String) (op : OutPoint)
    (h : st.resolve_dep_out_point r dgn name = .ok op) :
    ∃ cell, st.config.cells.find? (fun c => decide (c.name = name)) = some cell ∧
      cell.name = name ∧
      ((∃ f, cell.location = .file f ∧
         ∃ cr ∈ r, cr.name = name ∧ op = ⟨cr.tx_hash, cr.index⟩) ∨
       (∃ th i, cell.location = .outPoint th i ∧ op = ⟨th, i⟩)) := by
  rw [DeploymentProcess.resolve_dep_out_point] at h
  cases hf : st.config.cells.find? (fun c => decide (c.name = name)) with
  | none => simp [hf] at h
  | some cell =>
    simp only [hf] at h
    refine ⟨cell, rfl, by simpa using List.find?_some hf, ?_⟩
    cases hloc : cell.location with
    | file f =>
      simp only [hloc] at h
      cases hfr : r.find? (fun c => decide (c.name = name)) with
      | none => simp [hfr] at h
      | some cr =>
        simp only [hfr] at h
        obtain rfl : op = ⟨cr.tx_hash, cr.index⟩ := by simpa using h.symm
        exact Or.inl ⟨f, rfl, cr, List.mem_of_find?_eq_some hfr,
          by simpa using List.find?_some hfr, rfl⟩
    | outPoint th i =>
      simp only [hloc] at h
      obtain rfl : op = ⟨th, i⟩ := by simpa using h.symm
      exact Or.inr ⟨th, i, rfl, rfl⟩

/-- Claim C6: a successfully built dep-group transaction carries, as its
principal output's data, the serialized out-point list with the same
length and order as the spec's cell-name list, each entry resolving either
to the same-batch cell recipe's tx hash and index (file-located cells) or
to the pre-existing out-point from the cell's spec. -/
theorem claim_c6_dep_group_out_points (st : DeploymentProcess)
    (cell_recipes : List CellRecipe) (dep_group : DepGroup)
    (input_cells : List LiveCell) (tx : Transaction)
    (hok : st.build_dep_group_tx cell_recipes dep_group input_cells = .ok tx) :
    ∃ out_points,
      st.resolve_out_points cell_recipes dep_group.name dep_group.cells =
        .ok out_points ∧
      tx.outputs_data[0]? = some (serializeOutPointVec out_points) ∧
      out_points.length = dep_group.cells.length ∧
      ∀ (k : Nat) (name : String), dep_group.cells[k]? = some name →
        ∃ op, out_points[k]? = some op ∧
          ∃ cell, st.config.cells.find? (fun c => decide (c.name = name)) = some cell ∧
            cell.name = name ∧
            ((∃ f, cell.location = .file f ∧
               ∃ cr ∈ cell_recipes, cr.name = name ∧ op = ⟨cr.tx_hash, cr.index⟩) ∨
             (∃ th i, cell.location = .outPoint th i ∧ op = ⟨th, i⟩)) := by
  rw [DeploymentProcess.build_dep_group_tx] at hok
  cases hres : st.resolve_out_points cell_recipes dep_group.name dep_group.cells with
  | error e => simp [hres] at hok
  | ok ops =>
    simp only [hres, Wallet.complete_tx_lock_deps] at hok
    obtain ⟨hlen, hpt⟩ :=
      resolve_out_points_spec st cell_recipes dep_group.name dep_group.cells ops hres
    obtain rfl : st.wallet.complete_tx_inputs
        ⟨input_cells.map LiveCell.input,
         [buildExactCapacity ⟨0, st.config.lock, none⟩ (serializeOutPointVec ops).length],
         [serializeOutPointVec ops]⟩
        ((input_cells.map LiveCell.capacity).sum) st.tx_fee = tx := by
      simpa using hok
    refine ⟨ops, rfl, (complete_tx_inputs_principal _ _ _ _ _ _).2, hlen, ?_⟩
    intro k name hk
    obtain ⟨op, hop, hres2⟩ := hpt k name hk
    exact ⟨op, hop, resolve_dep_out_point_ok st cell_recipes dep_group.name name op hres2⟩

/-- A process with one externally located cell and one dep group over it. -/
def demoStG : DeploymentProcess :=
  ⟨demoWalletB, 0,
   ⟨demoLockB, [⟨"c", false, .outPoint (List.replicate 32 8) 2⟩], [⟨"g", ["c"]⟩]⟩,
   fun _ => .error "unused"⟩

/-- The dep group of `demoStG`. -/
def demoDgG : DepGroup := ⟨"g", ["c"]⟩

/-- The out-point list `demoDgG` resolves to. -/
def demoOutPointsG : List OutPoint := [⟨List.replicate 32 8, 2⟩]

/-- The dep-group transaction built for `demoDgG` with no inputs. -/
def demoDepBuiltG : Transaction :=
  ⟨[], [⟨8100000000, demoLockB, none⟩], [serializeOutPointVec demoOutPointsG]⟩

theorem claim_c6_witness :
    ∃ out_points,
      demoStG.resolve_out_points [] demoDgG.name demoDgG.cells = .ok out_points ∧
      demoDepBuiltG.outputs_data[0]? = some (serializeOutPointVec out_points) ∧
      out_points.length = demoDgG.cells.length ∧
      ∀ (k : Nat) (name : String), demoDgG.cells[k]? = some name →
        ∃ op, out_points[k]? = some op ∧
          ∃ cell, demoStG.config.cells.find? (fun c => decide (c.name = name)) =
              some cell ∧
            cell.name = name ∧
            ((∃ f, cell.location = .file f ∧
               ∃ cr ∈ ([] : List CellRecipe), cr.name = name ∧
                 op = ⟨cr.tx_hash, cr.index⟩) ∨
             (∃ th i, cell.location = .outPoint th i ∧ op = ⟨th, i⟩)) :=
  claim_c6_dep_group_out_points demoStG [] demoDgG [] demoDepBuiltG (by decide)

/-! ## Claim C3 -/

/-- With `enable_type_id`, the recorded `type_id` is the hash of the
principal output's type script. -/
theorem build_cell_recipe_type_id (tx : Transaction) (cell : Cell) (o0 : CellOutput)
    (henable : cell.enable_type_id = true)
    (h0 : tx.outputs[0]? = some o0) :
    (build_cell_recipe tx cell).type_id = o0.type_.map Script.calc_script_hash := by
  rw [build_cell_recipe]
  simp [henable, h0]

/-- Shape of a type-id cell build: the transaction carries the principal
output at index 0 with the type script chosen by inspecting the first
input's resolved output, and the recipe records that script's hash. -/
theorem build_cell_tx_type_id_shape (st : DeploymentProcess) (cell : Cell)
    (data : List Nat) (ic : LiveCell) (rest : List LiveCell)
    (qtx : Transaction) (out : CellOutput) (ts : Script)
    (henable : cell.enable_type_id = true)
    (hq : st.wallet.query_transaction ic.tx_hash = some qtx)
    (hout : qtx.outputs[ic.index]? = some out)
    (hts : (match out.type_ with
      | some script => if is_type_id_script script then script
                       else build_type_id_script ic.input 0
      | none => build_type_id_script ic.input 0) = ts) :
    ∃ tx, st.build_cell_tx cell data (ic :: rest) = .ok tx ∧
      tx.outputs[0]? =
        some (buildExactCapacity ⟨0, st.config.lock, some ts⟩ data.length) ∧
      (build_cell_recipe tx cell).type_id = some ts.calc_script_hash := by
  have hbuild : st.build_cell_tx cell data (ic :: rest) =
      .ok (st.wallet.complete_tx_inputs
        ⟨(ic :: rest).map LiveCell.input,
         [buildExactCapacity ⟨0, st.config.lock, some ts⟩ data.length], [data]⟩
        (((ic :: rest).map LiveCell.capacity).sum) st.tx_fee) := by
    rw [DeploymentProcess.build_cell_tx]
    simp only [henable, List.isEmpty_cons, Bool.and_false, Bool.false_eq_true, if_false,
      if_true, List.head?_cons, hq, hout, hts, Wallet.complete_tx_lock_deps]
  have hprin := complete_tx_inputs_principal st.wallet ((ic :: rest).map LiveCell.input)
    (buildExactCapacity ⟨0, st.config.lock, some ts⟩ data.length) data
    (((ic :: rest).map LiveCell.capacity).sum) st.tx_fee
  refine ⟨_, hbuild, hprin.1, ?_⟩
  rw [build_cell_recipe_type_id _ cell _ henable hprin.1]
  rfl

/-- Claim C3 (amended): the type-id decision inspects only the *first*
input in the transaction's input list — the prior type-id script is
carried forward exactly when the first funding input carries one (and then
`CellRecipe.type_id` equals the prior script's hash), and a fresh type-id
is derived whenever the first input does not carry one, regardless of the
other inputs. -/
theorem claim_c3_type_id_first_input (st : DeploymentProcess) (cell : Cell)
    (data : List Nat) (ic : LiveCell) (rest : List LiveCell)
    (qtx : Transaction) (out : CellOutput)
    (henable : cell.enable_type_id = true)
    (hq : st.wallet.query_transaction ic.tx_hash = some qtx)
    (hout : qtx.outputs[ic.index]? = some out) :
    ∃ tx, st.build_cell_tx cell data (ic :: rest) = .ok tx ∧
      ∃ o0, tx.outputs[0]? = some o0 ∧
        (∀ s, out.type_ = some s → is_type_id_script s = true →
          o0.type_ = some s ∧
          (build_cell_recipe tx cell).type_id = some s.calc_script_hash) ∧
        ((∀ s, out.type_ = some s → is_type_id_script s = false) →
          o0.type_ = some (build_type_id_script ic.input 0)) := by
  cases hty : out.type_ with
  | none =>
    obtain ⟨tx, h1, h2, h3⟩ := build_cell_tx_type_id_shape st cell data ic rest qtx out
      (build_type_id_script ic.input 0) henable hq hout (by rw [hty])
    exact ⟨tx, h1, _, h2, fun s hs => absurd hs (by simp), fun _ => rfl⟩
  | some s0 =>
    cases htid : is_type_id_script s0 with
    | true =>
      obtain ⟨tx, h1, h2, h3⟩ := build_cell_tx_type_id_shape st cell data ic rest qtx out
        s0 henable hq hout (by simp only [hty]; simp [htid])
      refine ⟨tx, h1, _, h2, ?_, ?_⟩
      · intro s hs _
        cases hs
        exact ⟨rfl, h3⟩
      · intro hall
        exact absurd (hall s0 rfl) (by simp [htid])
    | false =>
      obtain ⟨tx, h1, h2, h3⟩ := build_cell_tx_type_id_shape st cell data ic rest qtx out
        (build_type_id_script ic.input 0) henable hq hout (by simp only [hty]; simp [htid])
      refine ⟨tx, h1, _, h2, ?_, fun _ => rfl⟩
      intro s hs htid2
      cases hs
      exact absurd htid2 (by simp [htid])

/-- A type-id script supposedly attached to an earlier deployment. -/
def cxPrior : Script := ⟨TYPE_ID_CODE_HASH, .type, [0]⟩

/-- Source transaction of the first funding input: no type script. -/
def cxTxA : Transaction := ⟨[], [⟨500, demoLockB, none⟩], [[]]⟩

/-- Source transaction of the second funding input: carries `cxPrior`. -/
def cxTxB : Transaction := ⟨[], [⟨500, demoLockB, some cxPrior⟩], [[]]⟩

/-- The first funding input. -/
def cxIn1 : LiveCell := ⟨List.replicate 32 1, 0, 500, true⟩

/-- The second funding input, whose cell carries the type-id script. -/
def cxIn2 : LiveCell := ⟨List.replicate 32 2, 0, 500, true⟩

/-- A wallet resolving the two funding inputs' source transactions. -/
def cxWalletA : Wallet :=
  { demoWalletB with
    query_transaction := fun h =>
      if h = cxIn1.tx_hash then some cxTxA
      else if h = cxIn2.tx_hash then some cxTxB
      else none }

/-- A process over `cxWalletA`. -/
def cxStA : DeploymentProcess := ⟨cxWalletA, 0, ⟨demoLockB, [], []⟩, fun _ => .error "unused"⟩

/-- A cell spec with `enable_type_id`. -/
def cxCellA : Cell := ⟨"sudt", true, .file "sudt.bin"⟩

/-- Claim C3 as stated is false: here the second funding input carries a
type-id script, yet the builder derives a fresh type-id from the first
input and does not carry the prior script forward. -/
theorem claim_c3_counterexample :
    ((cxStA.wallet.query_transaction cxIn2.tx_hash).bind
        (fun t => t.outputs[cxIn2.index]?)).bind CellOutput.type_ = some cxPrior ∧
    is_type_id_script cxPrior = true ∧
    ∃ tx, cxStA.build_cell_tx cxCellA [9] [cxIn1, cxIn2] = .ok tx ∧
      ∃ o0, tx.outputs[0]? = some o0 ∧
        o0.type_ = some (build_type_id_script cxIn1.input 0) ∧
        o0.type_ ≠ some cxPrior := by
  refine ⟨by decide, by decide, ?_⟩
  obtain ⟨tx, h1, h2, h3⟩ := build_cell_tx_type_id_shape cxStA cxCellA [9] cxIn1 [cxIn2]
    cxTxA ⟨500, demoLockB, none⟩ (build_type_id_script cxIn1.input 0)
    rfl (by decide) (by decide) rfl
  refine ⟨tx, h1, _, h2, rfl, ?_⟩
  intro hcontra
  have hargs : (build_type_id_script cxIn1.input 0).args = cxPrior.args := by
    have := Option.some.inj hcontra
    rw [this]
  have h32 := ckbBlake2b_length (cxIn1.input.serialize ++ natToLeBytes 8 0)
  rw [build_type_id_script] at hargs
  simp only [cxPrior] at hargs
  rw [hargs] at h32
  simp at h32

/-- A wallet whose every transaction lookup yields `cxTxB` (the first
funding input therefore carries the prior type-id script). -/
def cxWalletH : Wallet :=
  { demoWalletB with query_transaction := fun _ => some cxTxB }

/-- A process over `cxWalletH`. -/
def cxStH : DeploymentProcess := ⟨cxWalletH, 0, ⟨demoLockB, [], []⟩, fun _ => .error "unused"⟩

theorem claim_c3_witness :
    ∃ tx, cxStH.build_cell_tx cxCellA [9] [cxIn2] = .ok tx ∧
      ∃ o0, tx.outputs[0]? = some o0 ∧
        (∀ s, (⟨500, demoLockB, some cxPrior⟩ : CellOutput).type_ = some s →
          is_type_id_script s = true →
          o0.type_ = some s ∧
          (build_cell_recipe tx cxCellA).type_id = some s.calc_script_hash) ∧
        ((∀ s, (⟨500, demoLockB, some cxPrior⟩ : CellOutput).type_ = some s →
            is_type_id_script s = false) →
          o0.type_ = some (build_type_id_script cxIn2.input 0)) :=
  claim_c3_type_id_first_input cxStH cxCellA [9] cxIn2 [] cxTxB
    ⟨500, demoLockB, some cxPrior⟩ rfl rfl (by decide)

/-! ## Claim C5 -/

/-- The last element of `l.take (k + 1)` is `l[k]` when it exists. -/
theorem getLast?_take_succ {α : Type} : ∀ (l : List α) (k : Nat) (a : α),
    l[k]? = some a → (l.take (k + 1)).getLast? = some a
  | [], k, a => by simp
  | x :: xs, 0, a => by
    intro h
    simp only [List.getElem?_cons_zero, Option.some.injEq] at h
    subst h
    simp
  | x :: xs, k + 1, a => by
    intro h
    have hx : xs[k]? = some a := by simpa using h
    have ih := getLast?_take_succ xs k a hx
    rw [List.take_succ_cons]
    cases hxs : xs.take (k + 1) with
    | nil => rw [hxs] at ih; simp at ih
    | cons y ys =>
      rw [hxs] at ih
      rw [List.getLast?_cons_cons]
      exact ih

/-- Invariant of the cell phase: each step's transaction was built from
the inputs gathered over the transactions accumulated so far. -/
theorem build_cells_loop_invariant (st : DeploymentProcess)
    (pre : List (String × LiveCell)) :
    ∀ (cells : List (Cell × List Nat)) (txs0 : List Transaction)
      (recs0 : List CellRecipe) (txs : List Transaction) (recs : List CellRecipe),
      st.build_cells_loop pre cells txs0 recs0 = .ok (txs, recs) →
      ∃ news : List Transaction, txs = txs0 ++ news ∧ news.length = cells.length ∧
        ∀ (k : Nat) cd, cells[k]? = some cd →
          ∃ txk, news[k]? = some txk ∧
            st.build_cell_tx cd.1 cd.2
              (st.gather_inputs pre cd.1.name (txs0 ++ news.take k)) = .ok txk
  | [], txs0, recs0, txs, recs => by
    intro h
    rw [DeploymentProcess.build_cells_loop] at h
    obtain ⟨rfl, rfl⟩ : txs0 = txs ∧ recs0 = recs := by simpa using h
    exact ⟨[], by simp, rfl, by intro k cd hk; simp at hk⟩
  | (cell, data) :: restc, txs0, recs0, txs, recs => by
    intro h
    rw [DeploymentProcess.build_cells_loop] at h
    cases hb : st.build_cell_tx cell data (st.gather_inputs pre cell.name txs0) with
    | error e => simp [hb] at h
    | ok tx0 =>
      simp only [hb] at h
      obtain ⟨news, hnews, hlen, hpt⟩ :=
        build_cells_loop_invariant st pre restc (txs0 ++ [tx0])
          (recs0 ++ [build_cell_recipe tx0 cell]) txs recs h
      refine ⟨tx0 :: news, by simp [hnews], by simp [hlen], ?_⟩
      intro k cd hk
      cases k with
      | zero =>
        simp only [List.getElem?_cons_zero, Option.some.injEq] at hk
        subst hk
        exact ⟨tx0, by simp, by simpa using hb⟩
      | succ k =>
        obtain ⟨txk, htxk, hbk⟩ := hpt k cd (by simpa using hk)
        refine ⟨txk, by simpa using htxk, ?_⟩
        have harr : txs0 ++ (tx0 :: news).take (k + 1) = (txs0 ++ [tx0]) ++ news.take k := by
          simp [List.take_succ_cons]
        rw [harr]
        exact hbk

/-- Invariant of the dep-group phase, mirroring the cell phase. -/
theorem build_dep_groups_loop_invariant (st : DeploymentProcess)
    (pre : List (String × LiveCell)) (cell_recipes : List CellRecipe) :
    ∀ (dgs : List DepGroup) (txs0 : List Transaction)
      (recs0 : List DepGroupRecipe) (txs : List Transaction)
      (recs : List DepGroupRecipe),
      st.build_dep_groups_loop pre cell_recipes dgs txs0 recs0 = .ok (txs, recs) →
      ∃ news : List Transaction, txs = txs0 ++ news ∧ news.length = dgs.length ∧
        ∀ (k : Nat) dg, dgs[k]? = some dg →
          ∃ txk, news[k]? = some txk ∧
            st.build_dep_group_tx cell_recipes dg
              (st.gather_inputs pre dg.name (txs0 ++ news.take k)) = .ok txk
  | [], txs0, recs0, txs, recs => by
    intro h
    rw [DeploymentProcess.build_dep_groups_loop] at h
    obtain ⟨rfl, rfl⟩ : txs0 = txs ∧ recs0 = recs := by simpa using h
    exact ⟨[], by simp, rfl, by intro k dg hk; simp at hk⟩
  | dg0 :: restd, txs0, recs0, txs, recs => by
    intro h
    rw [DeploymentProcess.build_dep_groups_loop] at h
    cases hb : st.build_dep_group_tx cell_recipes dg0
        (st.gather_inputs pre dg0.name txs0) with
    | error e => simp [hb] at h
    | ok tx0 =>
      simp only [hb] at h
      obtain ⟨news, hnews, hlen, hpt⟩ :=
        build_dep_groups_loop_invariant st pre cell_recipes restd (txs0 ++ [tx0])
          (recs0 ++ [build_dep_group_recipe tx0 dg0]) txs recs h
      refine ⟨tx0 :: news, by simp [hnews], by simp [hlen], ?_⟩
      intro k dg hk
      cases k with
      | zero =>
        simp only [List.getElem?_cons_zero, Option.some.injEq] at hk
        subst hk
        exact ⟨tx0, by simp, by simpa using hb⟩
      | succ k =>
        obtain ⟨txk, htxk, hbk⟩ := hpt k dg (by simpa using hk)
        refine ⟨txk, by simpa using htxk, ?_⟩
        have harr : txs0 ++ (tx0 :: news).take (k + 1) = (txs0 ++ [tx0]) ++ news.take k := by
          simp [List.take_succ_cons]
        rw [harr]
        exact hbk

/-- Claim C5: the change tracker's result is exactly the outputs locked to
the deployer's (wallet's) lock script with empty data and no type script;
and in both phases of the batch, the candidate-input set offered to step
k+1 is exactly the pre-selected input for that step's name followed by
the change set of transaction k (none when there is no previous
transaction or it produced no such output). -/
theorem claim_c5_change_chaining (st : DeploymentProcess) :
    (∀ tx lc, lc ∈ st.search_changes tx ↔
       ∃ (j : Nat) (o : CellOutput) (d : List Nat),
         tx.outputs[j]? = some o ∧ tx.outputs_data[j]? = some d ∧
         o.lock = st.wallet.lock_script ∧ d = [] ∧ o.type_ = none ∧
         lc = ⟨tx.hash, j, o.capacity, true⟩) ∧
    (∀ pre cells txs recs,
      st.build_cells_loop pre cells [] [] = .ok (txs, recs) →
      txs.length = cells.length ∧
      ∀ (k : Nat) cd, cells[k]? = some cd →
        ∃ txk, txs[k]? = some txk ∧
          (k = 0 →
            st.build_cell_tx cd.1 cd.2 (preSelectedInput pre cd.1.name) = .ok txk) ∧
          (∀ (j : Nat), k = j + 1 → ∀ txj, txs[j]? = some txj →
            st.build_cell_tx cd.1 cd.2
              (preSelectedInput pre cd.1.name ++ st.search_changes txj) = .ok txk)) ∧
    (∀ pre cell_recipes dgs txs0 txs recs,
      st.build_dep_groups_loop pre cell_recipes dgs txs0 [] = .ok (txs, recs) →
      ∃ news, txs = txs0 ++ news ∧ news.length = dgs.length ∧
      ∀ (k : Nat) dg, dgs[k]? = some dg →
        ∃ txk, news[k]? = some txk ∧
          ((txs0 ++ news.take k).getLast? = none →
            st.build_dep_group_tx cell_recipes dg
              (preSelectedInput pre dg.name) = .ok txk) ∧
          (∀ txprev, (txs0 ++ news.take k).getLast? = some txprev →
            st.build_dep_group_tx cell_recipes dg
              (preSelectedInput pre dg.name ++ st.search_changes txprev) = .ok txk)) := by
  refine ⟨?_, ?_, ?_⟩
  · intro tx lc
    rw [DeploymentProcess.search_changes, mem_searchChangesAux]
    simp
  · intro pre cells txs recs h
    obtain ⟨news, hnews, hlen, hpt⟩ :=
      build_cells_loop_invariant st pre cells [] [] txs recs h
    simp only [List.nil_append] at hnews
    subst hnews
    refine ⟨hlen, ?_⟩
    intro k cd hk
    obtain ⟨txk, htxk, hbk⟩ := hpt k cd hk
    simp only [List.nil_append] at hbk
    refine ⟨txk, htxk, ?_, ?_⟩
    · rintro rfl
      rw [List.take_zero] at hbk
      simpa [DeploymentProcess.gather_inputs] using hbk
    · rintro j rfl txj htxj
      rw [DeploymentProcess.gather_inputs, getLast?_take_succ txs j txj htxj] at hbk
      exact hbk
  · intro pre cell_recipes dgs txs0 txs recs h
    obtain ⟨news, hnews, hlen, hpt⟩ :=
      build_dep_groups_loop_invariant st pre cell_recipes dgs txs0 [] txs recs h
    refine ⟨news, hnews, hlen, ?_⟩
    intro k dg hk
    obtain ⟨txk, htxk, hbk⟩ := hpt k dg hk
    refine ⟨txk, htxk, ?_, ?_⟩
    · intro hnone
      rw [DeploymentProcess.gather_inputs, hnone] at hbk
      simpa using hbk
    · intro txprev hprev
      rw [DeploymentProcess.gather_inputs, hprev] at hbk
      exact hbk

theorem claim_c5_witness :
    ((⟨demoChangeTx.hash, 0, 700, true⟩ : LiveCell) ∈
      demoStB.search_changes demoChangeTx) ∧
    ∃ txs recs,
      demoStB.build_cells_loop []
        [(⟨"a", false, .file "a.bin"⟩, [1]), (⟨"b", false, .file "b.bin"⟩, [2])]
        [] [] = .ok (txs, recs) ∧
      txs.length = 2 := by
  constructor
  · exact ((claim_c5_change_chaining demoStB).1 demoChangeTx _).mpr
      ⟨0, ⟨700, demoLockB, none⟩, [], by simp [demoChangeTx], by simp [demoChangeTx],
        rfl, rfl, rfl, rfl⟩
  · refine ⟨_, _, rfl, ?_⟩
    have hlen := ((claim_c5_change_chaining demoStB).2.1 []
      [(⟨"a", false, .file "a.bin"⟩, [1]), (⟨"b", false, .file "b.bin"⟩, [2])]
      _ _ rfl).1
    rw [hlen]
    rfl

end Capsule
